import Mathlib

/-!
Verification of `custom_components/cryptoinfo/sensor.py`.

Shallow embedding conventions:
* Instants (`datetime`) are rationals measured in seconds; `timedelta(minutes=1)`
  is the rational `60`.
* `CryptoApiRateLimiter.acquire` runs entirely under the instance lock, so a
  run of the limiter is a sequence of `acquire` calls at non-decreasing call
  times.  Within one call, "now" is the call time until the call sleeps; a
  sleeping call resumes exactly `wait` seconds later, and the timestamp it
  appends is the resume instant (the code re-reads `datetime.now()` after the
  sleep).
* Coordinators are identified by opaque numeric ids; the registry
  `_coordinators` is a list of ids, and Python `list.remove` / `list.index`
  become `List.erase` / `List.indexOf`.
-/

namespace Cryptoinfo

/-- `MAX_REQUESTS_PER_MINUTE = 15` (sensor.py line 61). -/
def MAX_REQUESTS_PER_MINUTE : ℕ := 15

/-- `CryptoApiRateLimiter._cleanup_old_timestamps`: keep only timestamps
strictly newer than `now - 1 minute` (the list comprehension keeps `ts > cutoff`). -/
def cleanupOldTimestamps (log : List ℚ) (now : ℚ) : List ℚ :=
  log.filter (fun ts => decide (now - 60 < ts))

/-- Result of one `acquire()` call: the updated `_request_timestamps` list, the
instant at which the call returns (also the timestamp it appended), and the
duration it spent in `asyncio.sleep`. -/
structure AcquireResult where
  log : List ℚ
  finish : ℚ
  slept : ℚ
  deriving DecidableEq

/-- `CryptoApiRateLimiter.acquire` (sensor.py lines 101-119), called at instant
`now`: purge, check the ceiling, possibly sleep until the oldest surviving
timestamp is a full minute old and purge again, then append the current
instant.  (`headD 0` stands for the `[0]` indexing; the empty case is
unreachable under the ceiling check.) -/
def acquire (log : List ℚ) (now : ℚ) : AcquireResult :=
  let cleaned := cleanupOldTimestamps log now
  if MAX_REQUESTS_PER_MINUTE ≤ cleaned.length then
    let oldest := cleaned.headD 0
    let wait := oldest + 60 - now
    if 0 < wait then
      let now2 := now + wait
      let cleaned2 := cleanupOldTimestamps cleaned now2
      ⟨cleaned2 ++ [now2], now2, wait⟩
    else
      ⟨cleaned ++ [now], now, 0⟩
  else
    ⟨cleaned ++ [now], now, 0⟩

/-- Limiter states reachable by a sequence of `acquire()` calls: the limiter
starts with an empty log, and each later call happens no earlier than the
instant the previous call returned. -/
inductive ReachableLimiter : List ℚ → ℚ → Prop
  | init (t0 : ℚ) : ReachableLimiter [] t0
  | step {log : List ℚ} {t : ℚ} (h : ReachableLimiter log t) (t2 : ℚ) (ht : t ≤ t2) :
      ReachableLimiter (acquire log t2).log (acquire log t2).finish

/-- Invariant carried through the induction: the log is sorted, every entry is
inside the trailing 60-second window of the current instant, and the log holds
at most `MAX_REQUESTS_PER_MINUTE` entries. -/
def GoodState (log : List ℚ) (t : ℚ) : Prop :=
  log.Sorted (· ≤ ·) ∧ (∀ x ∈ log, t - 60 < x ∧ x ≤ t) ∧
    log.length ≤ MAX_REQUESTS_PER_MINUTE

lemma mem_cleanup {log : List ℚ} {now x : ℚ} :
    x ∈ cleanupOldTimestamps log now ↔ x ∈ log ∧ now - 60 < x := by
  simp [cleanupOldTimestamps]

lemma cleanup_sorted {log : List ℚ} (h : log.Sorted (· ≤ ·)) (now : ℚ) :
    (cleanupOldTimestamps log now).Sorted (· ≤ ·) :=
  h.filter _

lemma cleanup_sublist (log : List ℚ) (now : ℚ) :
    (cleanupOldTimestamps log now).Sublist log :=
  List.filter_sublist log

lemma cleanup_length_le (log : List ℚ) (now : ℚ) :
    (cleanupOldTimestamps log now).length ≤ log.length :=
  List.length_filter_le _ log

lemma acquire_good {log : List ℚ} {t : ℚ} (hg : GoodState log t) {t2 : ℚ} (ht : t ≤ t2) :
    GoodState (acquire log t2).log (acquire log t2).finish := by
  obtain ⟨hsort, hmem, hlen⟩ := hg
  have hclean_sort := cleanup_sorted hsort t2
  have hclean_mem : ∀ x ∈ cleanupOldTimestamps log t2, t2 - 60 < x ∧ x ≤ t2 := by
    intro x hx
    rcases mem_cleanup.1 hx with ⟨hxl, hxgt⟩
    exact ⟨hxgt, le_trans (hmem x hxl).2 ht⟩
  have hclean_len : (cleanupOldTimestamps log t2).length ≤ MAX_REQUESTS_PER_MINUTE :=
    le_trans (cleanup_length_le log t2) hlen
  unfold acquire
  set cleaned := cleanupOldTimestamps log t2 with hcleaned
  by_cases hfull : MAX_REQUESTS_PER_MINUTE ≤ cleaned.length
  · -- ceiling reached: the sleep branch
    rcases hl : cleaned with _ | ⟨a, rest⟩
    · exfalso
      rw [hl] at hfull
      simp [MAX_REQUESTS_PER_MINUTE] at hfull
    · have ha_mem : a ∈ cleaned := by rw [hl]; exact List.mem_cons_self a rest
      have ha := hclean_mem a ha_mem
      have hwait : 0 < a + 60 - t2 := by linarith [ha.1]
      rw [← hl]
      have hhead : cleaned.headD 0 = a := by rw [hl]; rfl
      simp only [hfull, if_true, hhead, hwait, if_true]
      -- after sleeping, now2 = a + 60 and the purge drops `a`
      have hnow2 : t2 + (a + 60 - t2) = a + 60 := by ring
      constructor
      · -- sorted
        refine List.pairwise_append.2 ⟨cleanup_sorted hclean_sort _, List.sorted_singleton _, ?_⟩
        intro x hx y hy
        rcases List.mem_singleton.1 hy with rfl
        rcases mem_cleanup.1 hx with ⟨hxc, _⟩
        have := (hclean_mem x hxc).2
        linarith
      constructor
      · -- window bounds
        intro x hx
        rcases List.mem_append.1 hx with hx | hx
        · rcases mem_cleanup.1 hx with ⟨hxc, hxgt⟩
          exact ⟨hxgt, by linarith [(hclean_mem x hxc).2]⟩
        · rcases List.mem_singleton.1 hx with rfl
          constructor <;> linarith
      · -- length: the purge at `now2` drops the head `a`
        have hdrop : cleanupOldTimestamps cleaned (t2 + (a + 60 - t2)) =
            cleanupOldTimestamps rest (t2 + (a + 60 - t2)) := by
          rw [hl]
          unfold cleanupOldTimestamps
          rw [List.filter_cons]
          have : ¬ (t2 + (a + 60 - t2) - 60 < a) := by
            rw [hnow2]; intro hcon; linarith
          simp [this]
        rw [List.length_append, hdrop]
        have h1 : (cleanupOldTimestamps rest (t2 + (a + 60 - t2))).length ≤ rest.length :=
          cleanup_length_le rest _
        have h2 : rest.length + 1 = cleaned.length := by rw [hl]; rfl
        have h3 : cleaned.length ≤ MAX_REQUESTS_PER_MINUTE := hclean_len
        simp only [List.length_singleton]
        omega
  · -- room in the window: append without sleeping
    simp only [hfull, if_false]
    constructor
    · refine List.pairwise_append.2 ⟨hclean_sort, List.sorted_singleton _, ?_⟩
      intro x hx y hy
      rcases List.mem_singleton.1 hy with rfl
      exact (hclean_mem x hx).2
    constructor
    · intro x hx
      rcases List.mem_append.1 hx with hx | hx
      · exact hclean_mem x hx
      · rcases List.mem_singleton.1 hx with rfl
        constructor <;> linarith
    · rw [List.length_append]
      simp only [List.length_singleton]
      omega

lemma reachable_good {log : List ℚ} {t : ℚ} (h : ReachableLimiter log t) :
    GoodState log t := by
  induction h with
  | init t0 =>
      refine ⟨List.sorted_nil, ?_, ?_⟩ <;> simp [MAX_REQUESTS_PER_MINUTE]
  | step h t2 ht ih => exact acquire_good ih ht

/-- C1: after any sequence of `acquire()` calls, at any observation instant,
the number of logged timestamps younger than 60 seconds is at most the
ceiling of 15. -/
theorem acquire_window_ceiling {log : List ℚ} {t : ℚ}
    (h : ReachableLimiter log t) (obs : ℚ) :
    (cleanupOldTimestamps log obs).length ≤ MAX_REQUESTS_PER_MINUTE :=
  le_trans (cleanup_length_le log obs)
    ((reachable_good h).2.2)

/-- Witness for C1 at the state reached by one `acquire` from the initial state. -/
theorem acquire_window_ceiling_witness :
    (cleanupOldTimestamps (acquire [] 0).log 30).length ≤ MAX_REQUESTS_PER_MINUTE :=
  acquire_window_ceiling (ReachableLimiter.step (ReachableLimiter.init 0) 0 le_rfl) 30

/-- Refinement reference, written from the spec's words: "compute
`cutoff = now - 60s`; drop all logged timestamps `<= cutoff`". -/
def purgeSpec (log : List ℚ) (now : ℚ) : List ℚ :=
  log.filter (fun ts => decide ¬ (ts ≤ now - 60))

/-- Refinement reference for `acquire`, written from the spec's words: purge;
if the remaining count is at least the ceiling, `wait = timestamp[0] + 60s - now`;
if positive, suspend exactly `wait` and re-purge; finally append the current
instant. -/
def acquireSpec (log : List ℚ) (now : ℚ) : AcquireResult :=
  let remaining := purgeSpec log now
  if MAX_REQUESTS_PER_MINUTE ≤ remaining.length then
    let wait := remaining.headD 0 + 60 - now
    if 0 < wait then
      let now2 := now + wait
      ⟨purgeSpec remaining now2 ++ [now2], now2, wait⟩
    else
      ⟨remaining ++ [now], now, 0⟩
  else
    ⟨remaining ++ [now], now, 0⟩

lemma purgeSpec_eq_cleanup (log : List ℚ) (now : ℚ) :
    purgeSpec log now = cleanupOldTimestamps log now := by
  unfold purgeSpec cleanupOldTimestamps
  refine List.filter_congr ?_
  intro x _
  exact decide_eq_decide.2 not_le

/-- `n` back-to-back `acquire()` calls starting from the fresh limiter at
instant `0`: each call is issued the moment the previous one returns. -/
def backToBack : ℕ → AcquireResult
  | 0 => ⟨[], 0, 0⟩
  | n + 1 => acquire (backToBack n).log (backToBack n).finish

lemma cleanup_all_kept {log : List ℚ} {now : ℚ} (h : ∀ x ∈ log, now - 60 < x) :
    cleanupOldTimestamps log now = log := by
  apply List.filter_eq_self.2
  intro a ha
  exact decide_eq_true (h a ha)

lemma backToBack_le_ceiling (n : ℕ) (hn : n ≤ MAX_REQUESTS_PER_MINUTE) :
    backToBack n = ⟨List.replicate n 0, 0, 0⟩ := by
  induction n with
  | zero => rfl
  | succ k ih =>
      have hk : k ≤ MAX_REQUESTS_PER_MINUTE := Nat.le_of_succ_le hn
      rw [backToBack, ih hk]
      simp only [acquire]
      have hfil : cleanupOldTimestamps (List.replicate k (0 : ℚ)) 0 = List.replicate k 0 := by
        apply cleanup_all_kept
        intro x hx
        rw [List.eq_of_mem_replicate hx]
        norm_num
      rw [hfil, List.length_replicate]
      have : ¬ MAX_REQUESTS_PER_MINUTE ≤ k := by
        simp only [MAX_REQUESTS_PER_MINUTE] at hn ⊢
        omega
      rw [if_neg this, ← List.replicate_succ']

lemma backToBack_sixteenth :
    backToBack 16 = ⟨[60], 60, 60⟩ := by
  have h15 : backToBack 15 = ⟨List.replicate 15 0, 0, 0⟩ :=
    backToBack_le_ceiling 15 le_rfl
  have hstep : backToBack 16 = acquire (List.replicate 15 0) 0 := by
    rw [show (16 : ℕ) = 15 + 1 from rfl, backToBack, h15]
  rw [hstep]
  simp only [acquire]
  have hfil : cleanupOldTimestamps (List.replicate 15 (0 : ℚ)) 0 = List.replicate 15 0 := by
    apply cleanup_all_kept
    intro x hx
    rw [List.eq_of_mem_replicate hx]
    norm_num
  rw [hfil, List.length_replicate]
  rw [if_pos (show MAX_REQUESTS_PER_MINUTE ≤ 15 from le_rfl)]
  have hhead : (List.replicate 15 (0 : ℚ)).headD 0 = 0 := rfl
  rw [hhead]
  have hwait : (0 : ℚ) < 0 + 60 - 0 := by norm_num
  rw [if_pos hwait]
  have hdrop : cleanupOldTimestamps (List.replicate 15 (0 : ℚ)) (0 + (0 + 60 - 0)) = [] := by
    unfold cleanupOldTimestamps
    apply List.filter_eq_nil_iff.2
    intro a ha
    rw [List.eq_of_mem_replicate ha]
    simp only [decide_eq_true_eq]
    norm_num
  rw [hdrop]
  have h1 : (0 : ℚ) + (0 + 60 - 0) = 60 := by norm_num
  have h2 : (0 : ℚ) + 60 - 0 = 60 := by norm_num
  rw [h1, h2]
  rfl

/-- C2: `acquire` follows exactly the purge / check / sleep-and-repurge /
append sequence of the spec, and with the ceiling of 15, of 16 back-to-back
calls the first logs its timestamp at instant 0, none of the first 15 sleeps,
and the 16th sleeps exactly 60 seconds, returning at instant 0 + 60, when the
1st call's timestamp has aged past the 60-second window. -/
theorem acquire_follows_spec_steps :
    (∀ (log : List ℚ) (now : ℚ), acquire log now = acquireSpec log now) ∧
      (backToBack 1).log = [0] ∧
      (backToBack 15).slept = 0 ∧
      (backToBack 16).slept = 60 ∧ (backToBack 16).finish = 0 + 60 := by
  refine ⟨?_, ?_, ?_, ?_, ?_⟩
  · intro log now
    simp only [acquire, acquireSpec, purgeSpec_eq_cleanup]
  · rw [backToBack_le_ceiling 1 (by norm_num [MAX_REQUESTS_PER_MINUTE])]
    rfl
  · rw [backToBack_le_ceiling 15 le_rfl]
  · rw [backToBack_sixteenth]
  · rw [backToBack_sixteenth]
    norm_num

/-- C10: in every reachable limiter state the timestamp log is sorted in
non-decreasing order, one more `acquire` call replaces the log by a purged
sublist of it with exactly one new timestamp (the return instant) appended,
and the log's first element is a lower bound of the whole log — the
precondition for using `timestamp[0]` as the oldest entry. -/
theorem log_sorted_single_append {log : List ℚ} {t : ℚ}
    (h : ReachableLimiter log t) (t2 : ℚ) :
    log.Sorted (· ≤ ·) ∧
      (∃ kept : List ℚ, kept.Sublist log ∧
        (acquire log t2).log = kept ++ [(acquire log t2).finish]) ∧
      (∀ x ∈ log, ∀ y, log.head? = some y → y ≤ x) := by
  have hsort := (reachable_good h).1
  refine ⟨hsort, ?_, ?_⟩
  · simp only [acquire]
    by_cases hfull : MAX_REQUESTS_PER_MINUTE ≤ (cleanupOldTimestamps log t2).length
    · rw [if_pos hfull]
      by_cases hwait : 0 < (cleanupOldTimestamps log t2).headD 0 + 60 - t2
      · rw [if_pos hwait]
        exact ⟨_, (cleanup_sublist _ _).trans (cleanup_sublist _ _), rfl⟩
      · rw [if_neg hwait]
        exact ⟨_, cleanup_sublist _ _, rfl⟩
    · rw [if_neg hfull]
      exact ⟨_, cleanup_sublist _ _, rfl⟩
  · intro x hx y hy
    cases log with
    | nil => cases hx
    | cons a l =>
        rw [List.head?_cons, Option.some_inj] at hy
        subst hy
        rcases List.mem_cons.1 hx with rfl | hx
        · exact le_rfl
        · exact List.rel_of_sorted_cons hsort x hx

/-- Witness for C10 at the state reached by one `acquire`. -/
theorem log_sorted_single_append_witness :
    (acquire [] 0).log.Sorted (· ≤ ·) ∧
      (∃ kept : List ℚ, kept.Sublist (acquire [] 0).log ∧
        (acquire (acquire [] 0).log 5).log
          = kept ++ [(acquire (acquire [] 0).log 5).finish]) ∧
      (∀ x ∈ (acquire [] 0).log, ∀ y, (acquire [] 0).log.head? = some y → y ≤ x) :=
  log_sorted_single_append (ReachableLimiter.step (ReachableLimiter.init 0) 0 le_rfl) 5

/-! ### Coordinator registry and stagger delays -/

/-- Coordinators are identified by opaque numeric ids. -/
abbrev Coordinator := ℕ

/-- `CryptoApiRateLimiter.register_coordinator`: append the coordinator to
`_coordinators` and return its stagger index `len(self._coordinators) - 1`. -/
def register_coordinator (reg : List Coordinator) (c : Coordinator) :
    List Coordinator × ℕ :=
  (reg ++ [c], (reg ++ [c]).length - 1)

/-- `CryptoApiRateLimiter.unregister_coordinator`: `list.remove` of the first
occurrence, guarded by a membership test. -/
def unregister_coordinator (reg : List Coordinator) (c : Coordinator) :
    List Coordinator :=
  if c ∈ reg then reg.erase c else reg

/-- `CryptoApiRateLimiter.get_stagger_delay`: `0` when the coordinator is not
registered, otherwise `self._coordinators.index(coordinator) * 5.0`. -/
def get_stagger_delay (reg : List Coordinator) (c : Coordinator) : ℚ :=
  if c ∈ reg then (reg.indexOf c : ℚ) * 5 else 0

lemma indexOf_append_cons {l1 : List Coordinator} (l2 : List Coordinator)
    {c : Coordinator} (h : c ∉ l1) :
    (l1 ++ c :: l2).indexOf c = l1.length := by
  induction l1 with
  | nil => simp
  | cons a t ih =>
      have hne : c ≠ a := fun e => h (e ▸ List.mem_cons_self a t)
      have ht : c ∉ t := fun e => h (List.mem_cons_of_mem a e)
      simp only [List.cons_append, List.length_cons]
      rw [List.indexOf_cons_ne _ (Ne.symm hne), ih ht]

/-- C3: `register_coordinator` appends and returns the zero-based registration
position, and `get_stagger_delay` returns the current index times 5 seconds
for a registered coordinator and 0 for an unregistered one; in particular a
freshly registered coordinator's delay is the returned index times 5. -/
theorem stagger_delay_index_times_five (reg : List Coordinator) (c : Coordinator) :
    ((register_coordinator reg c).2 = reg.length ∧
        (register_coordinator reg c).1 = reg ++ [c]) ∧
      (c ∈ reg → get_stagger_delay reg c = (reg.indexOf c : ℚ) * 5) ∧
      (c ∉ reg → get_stagger_delay reg c = 0) ∧
      (c ∉ reg → get_stagger_delay (register_coordinator reg c).1 c
          = ((register_coordinator reg c).2 : ℚ) * 5) := by
  refine ⟨⟨by simp [register_coordinator], rfl⟩, ?_, ?_, ?_⟩
  · intro hc
    simp [get_stagger_delay, hc]
  · intro hc
    simp [get_stagger_delay, hc]
  · intro hc
    have hmem : c ∈ reg ++ [c] := List.mem_append_right reg (List.mem_singleton.2 rfl)
    have hidx : (reg ++ [c]).indexOf c = reg.length := by
      have := indexOf_append_cons ([] : List Coordinator) hc
      simpa using this
    simp [get_stagger_delay, register_coordinator, hmem, hidx]

/-- Witness for C3 on concrete registries. -/
theorem stagger_delay_index_times_five_witness :
    get_stagger_delay [3, 7] 7 = (([3, 7] : List Coordinator).indexOf 7 : ℚ) * 5 ∧
      get_stagger_delay [3, 7] 9 = 0 ∧
      get_stagger_delay (register_coordinator [3, 7] 9).1 9
        = ((register_coordinator [3, 7] 9).2 : ℚ) * 5 :=
  ⟨(stagger_delay_index_times_five [3, 7] 7).2.1 (by decide),
   (stagger_delay_index_times_five [3, 7] 9).2.2.1 (by decide),
   (stagger_delay_index_times_five [3, 7] 9).2.2.2 (by decide)⟩

/-- C4 as stated is false on the code: `get_stagger_delay` recomputes the
index from the coordinator's current position via `list.index`, so after the
earlier-registered coordinator 0 is unregistered, coordinator 1's returned
delay drops from 5 seconds to 0. -/
theorem unregister_changes_returned_delay :
    get_stagger_delay [0, 1] 1 = 5 ∧
      get_stagger_delay (unregister_coordinator [0, 1] 0) 1 = 0 ∧
      (5 : ℚ) ≠ 0 := by
  refine ⟨?_, ?_, by norm_num⟩
  · have h1 : ([0, 1] : List Coordinator).indexOf 1 = 1 := by decide
    have hm : (1 : Coordinator) ∈ [0, 1] := by decide
    rw [get_stagger_delay, if_pos hm, h1]
    norm_num
  · have herase : unregister_coordinator [0, 1] 0 = [1] := by decide
    rw [herase]
    have h1 : ([1] : List Coordinator).indexOf 1 = 0 := by decide
    have hm : (1 : Coordinator) ∈ [1] := by decide
    rw [get_stagger_delay, if_pos hm, h1]
    norm_num

/-- C4 amended: the stagger index stored at registration time (the value
`register_coordinator` returned) is a pure value that later operations never
mutate, but the delay `get_stagger_delay` subsequently returns is recomputed
from the coordinator's current registry position: with registry
`l1 ++ c :: l2`, unregistering some `d` that was registered before `c`
shifts `c`'s returned delay from `l1.length * 5` down to `(l1.length - 1) * 5`. -/
theorem unregister_shifts_later_delay (l1 l2 : List Coordinator)
    (c d : Coordinator) (hc1 : c ∉ l1) (hd : d ∈ l1) :
    get_stagger_delay (l1 ++ c :: l2) c = (l1.length : ℚ) * 5 ∧
      unregister_coordinator (l1 ++ c :: l2) d = l1.erase d ++ c :: l2 ∧
      get_stagger_delay (unregister_coordinator (l1 ++ c :: l2) d) c
        = (((l1.length - 1 : ℕ)) : ℚ) * 5 := by
  have hcm : c ∈ l1 ++ c :: l2 :=
    List.mem_append_right l1 (List.mem_cons_self c l2)
  have hunreg : unregister_coordinator (l1 ++ c :: l2) d = l1.erase d ++ c :: l2 := by
    have hdm : d ∈ l1 ++ c :: l2 := List.mem_append_left _ hd
    rw [unregister_coordinator, if_pos hdm, List.erase_append_left _ hd]
  refine ⟨?_, hunreg, ?_⟩
  · rw [get_stagger_delay, if_pos hcm, indexOf_append_cons l2 hc1]
  · have hc1e : c ∉ l1.erase d := fun hmem => hc1 (List.mem_of_mem_erase hmem)
    have hcm2 : c ∈ l1.erase d ++ c :: l2 :=
      List.mem_append_right _ (List.mem_cons_self c l2)
    rw [hunreg, get_stagger_delay, if_pos hcm2, indexOf_append_cons l2 hc1e,
      List.length_erase_of_mem hd]

/-- Witness for the amended C4 with registry `[0, 1]`. -/
theorem unregister_shifts_later_delay_witness :
    get_stagger_delay ([0] ++ 1 :: []) 1 = (([0] : List Coordinator).length : ℚ) * 5 ∧
      unregister_coordinator ([0] ++ 1 :: []) 0 = ([0] : List Coordinator).erase 0 ++ 1 :: [] ∧
      get_stagger_delay (unregister_coordinator ([0] ++ 1 :: []) 0) 1
        = (((([0] : List Coordinator).length - 1 : ℕ)) : ℚ) * 5 :=
  unregister_shifts_later_delay [0] [] 1 0 (by decide) (by decide)

/-! ### Python string primitives

Python `str` values that the code computes on are modelled as `List Char`;
opaque identifier values (coin ids, names, urls) stay `String`. -/

/-- A Python string under computation. -/
abbrev PyStr := List Char

/-- Python `str.split(sep)` for a one-character separator: every occurrence
splits, empty parts are kept, and `"".split(sep) == [""]`. -/
def pySplit (sep : Char) : PyStr → List PyStr
  | [] => [[]]
  | c :: rest =>
      match pySplit sep rest with
      | [] => if c = sep then [[], []] else [[c]]
      | h :: t => if c = sep then [] :: h :: t else (c :: h) :: t

/-- Python `str.strip()`: drop whitespace from both ends. -/
def pyStrip (s : PyStr) : PyStr :=
  ((s.dropWhile Char.isWhitespace).reverse.dropWhile Char.isWhitespace).reverse

/-- Python `str.lower()`. -/
def pyLower (s : PyStr) : PyStr :=
  s.map Char.toLower

/-- Python `int(str)` on decimal strings: optional surrounding whitespace, an
optional sign, then one or more digits; anything else raises `ValueError`,
modelled as `none`. -/
def pyDigits : PyStr → Option ℕ
  | [] => none
  | cs =>
      if cs.all Char.isDigit then
        some (cs.foldl (fun n c => 10 * n + (c.toNat - '0'.toNat)) 0)
      else none

/-- See `pyDigits`; handles the optional sign and whitespace of `int(str)`. -/
def pyInt (s : PyStr) : Option ℤ :=
  match pyStrip s with
  | '-' :: rest => (pyDigits rest).map (fun n => -(n : ℤ))
  | '+' :: rest => (pyDigits rest).map (fun n => (n : ℤ))
  | t => (pyDigits t).map (fun n => (n : ℤ))

/-! ### Decoded records and the per-job cache -/

/-- One decoded per-asset record of the CoinGecko `coins/markets` response, as
read by `CryptoinfoSensor`.  Fields the code indexes with `data[...]` that are
nullable in the JSON, and fields it reads with `data.get(...)`, are `Option`s. -/
structure Coin where
  id : String
  name : String
  symbol : String
  current_price : ℚ
  total_volume : ℚ
  price_change_percentage_1h_in_currency : Option ℚ
  price_change_percentage_24h_in_currency : Option ℚ
  price_change_percentage_7d_in_currency : Option ℚ
  price_change_percentage_14d_in_currency : Option ℚ
  price_change_percentage_30d_in_currency : Option ℚ
  price_change_percentage_1y_in_currency : Option ℚ
  market_cap : Option ℚ
  circulating_supply : Option ℚ
  total_supply : Option ℚ
  ath : Option ℚ
  ath_date : Option String
  ath_change_percentage : Option ℚ
  market_cap_rank : Option ℕ
  image : String
  deriving DecidableEq

/-- A coordinator's cached result mapping, `{coin["id"]: coin for coin in data}`:
a Python dict as an insertion-ordered association list with unique keys. -/
abbrev Cache := List (String × Coin)

/-- Python dict assignment `m[k] = v`: overwrite in place if the key exists,
else append. -/
def dictInsert (m : Cache) (k : String) (v : Coin) : Cache :=
  if m.any (fun p => p.1 == k) then
    m.map (fun p => if p.1 == k then (k, v) else p)
  else m ++ [(k, v)]

/-- The dict comprehension `{coin["id"]: coin for coin in data}`. -/
def buildCache (data : List Coin) : Cache :=
  data.foldl (fun m coin => dictInsert m coin.id coin) []

/-! ### `CryptoDataCoordinator._async_update_data` -/

/-- One HTTP response as the coordinator sees it: the status code, the
`Retry-After` header if present, and the decoded JSON body (`none` models a
body on which `response.json()` raises). -/
structure Response where
  status : ℕ
  retryAfter : Option PyStr
  body : Option (List Coin)
  deriving DecidableEq

/-- Result of one `session.get`: a response, or a raised transport error. -/
inductive FetchResult where
  | ok (r : Response)
  | transportError
  deriving DecidableEq

/-- `aiohttp`'s `response.raise_for_status()` raises exactly when the status
is at least 400. -/
def raises_for_status (status : ℕ) : Bool :=
  decide (400 ≤ status)

/-- The `except` fallback `return self.data if self.data else None`: an empty
dict is falsy, so only a non-empty previous cache is returned. -/
def fallback (prev : Option Cache) : Option Cache :=
  match prev with
  | some m => if m.isEmpty then none else some m
  | none => none

/-- Observable outcome of one `_async_update_data` cycle: the durations passed
to `asyncio.sleep`, the number of `session.get` calls issued, and the value
returned. -/
structure UpdateResult where
  sleeps : List ℤ
  requests : ℕ
  result : Option Cache
  deriving DecidableEq

/-- `CryptoDataCoordinator._async_update_data` (sensor.py lines 241-282), with
the two possible `session.get` outcomes supplied as `first` and `retry`.
On a 429 first response the code sleeps `int(headers.get("Retry-After", "60"))`
seconds and retries exactly once; an unparseable header makes `int()` raise,
which the blanket `except` turns into the generic failure path.  Any raised
status (>= 400) or undecodable body also lands in the `except`, which returns
the previous cache if truthy, else `None`. -/
def async_update_data (prev : Option Cache) (first retry : FetchResult) : UpdateResult :=
  match first with
  | .transportError => ⟨[], 1, fallback prev⟩
  | .ok r =>
      if r.status = 429 then
        match pyInt (r.retryAfter.getD ("60".data)) with
        | none => ⟨[], 1, fallback prev⟩
        | some retry_after =>
            match retry with
            | .transportError => ⟨[retry_after], 2, fallback prev⟩
            | .ok r2 =>
                if raises_for_status r2.status then ⟨[retry_after], 2, fallback prev⟩
                else
                  match r2.body with
                  | some coins => ⟨[retry_after], 2, some (buildCache coins)⟩
                  | none => ⟨[retry_after], 2, fallback prev⟩
      else if raises_for_status r.status then ⟨[], 1, fallback prev⟩
      else
        match r.body with
        | some coins => ⟨[], 1, some (buildCache coins)⟩
        | none => ⟨[], 1, fallback prev⟩

/-- A second `session.get` outcome that fails in the sense of the generic
failure path: transport error, raised status, or undecodable body. -/
def fetchFails : FetchResult → Bool
  | .transportError => true
  | .ok r => raises_for_status r.status || r.body.isNone

/-- A whole fetch cycle that ends in the `except` handler: a transport error,
a raised status or bad body outside the 429 path, or — on the 429 path — an
unparseable `Retry-After` or a failing retry. -/
def cycleFails (first retry : FetchResult) : Bool :=
  match first with
  | .transportError => true
  | .ok r =>
      if r.status = 429 then
        match pyInt (r.retryAfter.getD ("60".data)) with
        | none => true
        | some _ => fetchFails retry
      else raises_for_status r.status || r.body.isNone

lemma async_update_429 (prev : Option Cache) (ra : Option PyStr)
    (bd : Option (List Coin)) (retry : FetchResult) :
    async_update_data prev (.ok ⟨429, ra, bd⟩) retry =
      match pyInt (ra.getD ("60".data)) with
      | none => ⟨[], 1, fallback prev⟩
      | some retry_after =>
          match retry with
          | .transportError => ⟨[retry_after], 2, fallback prev⟩
          | .ok r2 =>
              if raises_for_status r2.status then ⟨[retry_after], 2, fallback prev⟩
              else
                match r2.body with
                | some coins => ⟨[retry_after], 2, some (buildCache coins)⟩
                | none => ⟨[retry_after], 2, fallback prev⟩ := rfl

/-- C5 as stated is false on the code: on a 429 first response whose
`Retry-After` header is present but unparseable (`"abc"`), `int()` raises
`ValueError`, the blanket `except` returns the cached data, and the cycle
performs no sleep and no retry — one GET and an empty sleep list — instead of
defaulting to 60 seconds and retrying. -/
theorem retry_after_unparseable_no_retry :
    (async_update_data none (.ok ⟨429, some "abc".data, some []⟩)
        (.ok ⟨200, none, some []⟩)).requests = 1 ∧
      (async_update_data none (.ok ⟨429, some "abc".data, some []⟩)
        (.ok ⟨200, none, some []⟩)).sleeps = [] := by
  exact ⟨by decide, by decide⟩

/-- C5 amended: on a 429 first response the code parses `Retry-After`,
defaulting to `"60"` only when the header is absent; with an absent header it
sleeps 60 seconds and issues exactly one retry; with a present but unparseable
header `int()` raises and the cycle degrades immediately to the generic
failure path (no sleep, no retry); with a parsed value `n` it sleeps `n`
seconds and retries exactly once, and if the retry also fails (including a
second 429) the cycle degrades to the generic failure path. -/
theorem retry_once_on_429 (prev : Option Cache) (r : Response)
    (retry : FetchResult) (h429 : r.status = 429) :
    (r.retryAfter = none →
        (async_update_data prev (.ok r) retry).sleeps = [60] ∧
          (async_update_data prev (.ok r) retry).requests = 2) ∧
      (∀ s, r.retryAfter = some s → pyInt s = none →
          async_update_data prev (.ok r) retry = ⟨[], 1, fallback prev⟩) ∧
      (∀ n, pyInt (r.retryAfter.getD ("60".data)) = some n →
          (async_update_data prev (.ok r) retry).sleeps = [n] ∧
            (async_update_data prev (.ok r) retry).requests = 2 ∧
            (fetchFails retry = true →
              (async_update_data prev (.ok r) retry).result = fallback prev)) := by
  obtain ⟨st, ra, bd⟩ := r
  simp only [Response.status] at h429
  subst h429
  refine ⟨?_, ?_, ?_⟩
  · rintro rfl
    rw [async_update_429]
    have h60 : pyInt ((none : Option PyStr).getD ("60".data)) = some 60 := by decide
    rw [h60]
    cases retry with
    | transportError => exact ⟨rfl, rfl⟩
    | ok r2 =>
        cases hrs : raises_for_status r2.status with
        | true => simp [hrs]
        | false => cases hbd : r2.body <;> simp [hrs, hbd]
  · rintro s rfl hnone
    rw [async_update_429]
    simp only [Option.getD_some] at hnone ⊢
    rw [hnone]
  · intro n hn
    rw [async_update_429, hn]
    cases retry with
    | transportError => exact ⟨rfl, rfl, fun _ => rfl⟩
    | ok r2 =>
        cases hrs : raises_for_status r2.status with
        | true => simp [hrs]
        | false => cases hbd : r2.body <;> simp [hrs, hbd, fetchFails]

/-- Witness for the amended C5: `Retry-After: 30` and a second 429 on retry
give exactly one 30-second sleep, two GETs, and the generic fallback result. -/
theorem retry_once_on_429_witness :
    (async_update_data (some []) (.ok ⟨429, some "30".data, some []⟩)
        (.ok ⟨429, none, some []⟩)).sleeps = [30] ∧
      (async_update_data (some []) (.ok ⟨429, some "30".data, some []⟩)
        (.ok ⟨429, none, some []⟩)).requests = 2 ∧
      (async_update_data (some []) (.ok ⟨429, some "30".data, some []⟩)
        (.ok ⟨429, none, some []⟩)).result = fallback (some []) := by
  have h := (retry_once_on_429 (some []) ⟨429, some "30".data, some []⟩
      (.ok ⟨429, none, some []⟩) rfl).2.2 30 (by decide)
  exact ⟨h.1, h.2.1, h.2.2 (by decide)⟩

/-- Sample decoded records for concrete evaluations. -/
def coinA : Coin :=
  ⟨"a", "Asset A", "AAA", 100, 5, none, none, none, none, none, none,
    none, none, none, none, none, none, none, "imgA"⟩

/-- See `coinA`. -/
def coinB : Coin :=
  ⟨"b", "Asset B", "BBB", 7, 3, none, none, none, none, none, none,
    none, none, none, none, none, none, none, "imgB"⟩

/-- C6 as stated is false on the code in two places: (i) when the previous
cache exists but is the empty dict, a failed cycle returns `None` rather than
that cache unchanged (`self.data if self.data else None` treats `{}` as
falsy); (ii) a non-2xx status below 400 (here 300) does not raise in
`raise_for_status`, so the cycle replaces the cache with the fresh body
instead of returning the previous cache. -/
theorem failed_cycle_counterexample :
    ((async_update_data (some []) .transportError .transportError).result = none ∧
        (none : Option Cache) ≠ some []) ∧
      ((async_update_data (some [("a", coinA)]) (.ok ⟨300, none, some [coinB]⟩)
            .transportError).result = some [("b", coinB)] ∧
        (some [("b", coinB)] : Option Cache) ≠ some [("a", coinA)]) := by
  refine ⟨⟨by decide, by decide⟩, rfl, fun h => ?_⟩
  have hk := congrArg (fun o : Option Cache => (o.getD []).map Prod.fst) h
  exact absurd hk (by decide)

/-- C6 amended: for every fetch cycle that ends in the `except` handler
(transport error; raised status, i.e. `>= 400`, or malformed body; on the 429
path an unparseable `Retry-After` or a failing retry), the update returns the
previous cached result when that cache is non-empty, and reports `None` when
the previous cache is absent or empty; the handler never re-raises. -/
theorem failed_cycle_keeps_cache (prev : Option Cache) (first retry : FetchResult)
    (h : cycleFails first retry = true) :
    (async_update_data prev first retry).result = fallback prev ∧
      (∀ m, prev = some m → m.isEmpty = false → fallback prev = some m) ∧
      ((prev = none ∨ prev = some []) → fallback prev = none) := by
  refine ⟨?_, ?_, ?_⟩
  · cases first with
    | transportError => rfl
    | ok r =>
        obtain ⟨st, ra, bd⟩ := r
        by_cases h429 : st = 429
        · subst h429
          rw [async_update_429]
          simp only [cycleFails, if_pos rfl] at h
          cases hpi : pyInt (ra.getD ("60".data)) with
          | none => rfl
          | some n =>
              rw [hpi] at h
              cases retry with
              | transportError => rfl
              | ok r2 =>
                  cases hrs : raises_for_status r2.status with
                  | true => simp [hrs]
                  | false =>
                      cases hbd : r2.body with
                      | some coins =>
                          exfalso
                          simp [fetchFails, hrs, hbd] at h
                      | none => simp [hrs, hbd]
        · simp only [async_update_data, if_neg h429]
          simp only [cycleFails, if_neg h429] at h
          cases hrs : raises_for_status st with
          | true => simp [hrs]
          | false =>
              rw [hrs] at h
              simp only [Bool.false_or, Option.isNone_iff_eq_none] at h
              simp [hrs, h]
  · rintro m rfl hne
    simp [fallback, hne]
  · rintro (rfl | rfl) <;> simp [fallback]

/-- Witness for the amended C6: after a cache `{a: coinA}`, a transport-error
cycle returns exactly that cache. -/
theorem failed_cycle_keeps_cache_witness :
    (async_update_data (some [("a", coinA)]) .transportError .transportError).result
        = fallback (some [("a", coinA)]) ∧
      fallback (some [("a", coinA)]) = some [("a", coinA)] := by
  have h := failed_cycle_keeps_cache (some [("a", coinA)])
      .transportError .transportError (by decide)
  exact ⟨h.1, h.2.1 [("a", coinA)] rfl rfl⟩

/-! ### `async_setup_entry` -/

/-- The configuration entry consumed by `async_setup_entry`. -/
structure SetupConfig where
  id_name : PyStr
  cryptocurrency_ids : PyStr
  currency_name : PyStr
  unit_of_measurement : PyStr
  multipliers : PyStr
  deriving DecidableEq

/-- A constructed `CryptoinfoSensor` entity (the fields the claims need). -/
structure CryptoinfoSensor where
  cryptocurrency_id : PyStr
  currency_name : PyStr
  multiplier : PyStr
  deriving DecidableEq

/-- Observable outcome of `async_setup_entry`: the limiter registry afterwards,
the stagger index stored by the created coordinator, the entities passed to
`async_add_entities`, and whether setup completed (`False` on the length
mismatch). -/
structure SetupResult where
  registry : List Coordinator
  staggerIndex : ℕ
  entities : List CryptoinfoSensor
  ok : Bool
  deriving DecidableEq

/-- `crypto_list` as `async_setup_entry` computes it. -/
def cryptoListOf (cfg : SetupConfig) : List PyStr :=
  (pySplit ',' (pyStrip (pyLower cfg.cryptocurrency_ids))).map pyStrip

/-- `multipliers_list` as `async_setup_entry` computes it. -/
def multipliersListOf (cfg : SetupConfig) : List PyStr :=
  (pySplit ',' (pyStrip cfg.multipliers)).map pyStrip

/-- `async_setup_entry` (sensor.py lines 135-210).  The coordinator is created
— and thereby registered with the rate limiter — *before* the list lengths are
compared; on a mismatch the function logs an error and returns `False` without
adding entities (the stagger sleep and first refresh are omitted as they do
not affect the observable outcome modelled here). -/
def async_setup_entry (registry : List Coordinator) (newCoord : Coordinator)
    (cfg : SetupConfig) : SetupResult :=
  let currency_name := pyStrip cfg.currency_name
  let p := register_coordinator registry newCoord
  let crypto_list := cryptoListOf cfg
  let multipliers_list := multipliersListOf cfg
  if multipliers_list.length ≠ crypto_list.length then
    ⟨p.1, p.2, [], false⟩
  else
    ⟨p.1, p.2,
      (crypto_list.zip multipliers_list).map
        (fun q => ⟨q.1, currency_name, q.2⟩),
      true⟩

/-- C7 as stated is false on the code: with asset-id list length 3 and
multiplier list length 2, setup does abort with zero entities, but the
coordinator has already been created and registered with the limiter before
the length check runs — the registry grows from `[]` to `[0]`. -/
theorem setup_mismatch_counterexample :
    (async_setup_entry [] 0 ⟨[], "a,b,c".data, "usd".data, [], "1,2".data⟩).entities = [] ∧
      (async_setup_entry [] 0 ⟨[], "a,b,c".data, "usd".data, [], "1,2".data⟩).ok = false ∧
      (async_setup_entry [] 0 ⟨[], "a,b,c".data, "usd".data, [], "1,2".data⟩).registry = [0] ∧
      ([0] : List Coordinator) ≠ [] := by
  refine ⟨by decide, by decide, by decide, by decide⟩

/-- C7 amended: on any asset-id/multiplier length mismatch, setup adds zero
entities and returns `False` (there is no raised `ConfigError`; the error is
only logged), but the coordinator has already been created and registered with
the limiter, so the registry still grows by that one coordinator. -/
theorem setup_mismatch_aborts (registry : List Coordinator) (c : Coordinator)
    (cfg : SetupConfig)
    (h : (multipliersListOf cfg).length ≠ (cryptoListOf cfg).length) :
    (async_setup_entry registry c cfg).entities = [] ∧
      (async_setup_entry registry c cfg).ok = false ∧
      (async_setup_entry registry c cfg).registry = registry ++ [c] := by
  simp [async_setup_entry, register_coordinator, if_pos h, h]

/-- Witness for the amended C7 at a concrete mismatched configuration. -/
theorem setup_mismatch_aborts_witness :
    (async_setup_entry [] 0 ⟨[], "a,b,c".data, "usd".data, [], "1,2".data⟩).entities = [] ∧
      (async_setup_entry [] 0 ⟨[], "a,b,c".data, "usd".data, [], "1,2".data⟩).ok = false ∧
      (async_setup_entry [] 0 ⟨[], "a,b,c".data, "usd".data, [], "1,2".data⟩).registry
        = [] ++ [0] :=
  setup_mismatch_aborts [] 0 ⟨[], "a,b,c".data, "usd".data, [], "1,2".data⟩ (by decide)

/-! ### `CryptoinfoSensor.native_value` and `extra_state_attributes` -/

/-- `CryptoinfoSensor.native_value`: `data[cid]["current_price"] * multiplier`
when the coordinator's cache is truthy and holds the asset id, else `None`.
The stored multiplier string is modelled post-`float()` as a rational. -/
def native_value (data : Option Cache) (cryptocurrency_id : String)
    (multiplier : ℚ) : Option ℚ :=
  match data with
  | none => none
  | some m =>
      if m.isEmpty then none
      else
        match m.lookup cryptocurrency_id with
        | some coin => some (coin.current_price * multiplier)
        | none => none

/-- C8: the sensor value is the cached record's `current_price` times the
multiplier when the asset id is present in the cache, and `None` when the
cache is missing or the asset id is absent (in particular when the cache is
empty). -/
theorem native_value_spec (data : Option Cache) (cid : String) (mult : ℚ) :
    (∀ m coin, data = some m → m.lookup cid = some coin →
        native_value data cid mult = some (coin.current_price * mult)) ∧
      (data = none → native_value data cid mult = none) ∧
      (∀ m, data = some m → m.lookup cid = none →
        native_value data cid mult = none) := by
  refine ⟨?_, ?_, ?_⟩
  · rintro m coin rfl hl
    cases m with
    | nil => cases hl
    | cons p t => simp [native_value, hl]
  · rintro rfl
    rfl
  · rintro m rfl hl
    cases m with
    | nil => rfl
    | cons p t => simp [native_value, hl]

/-- Witness for C8 on a one-record cache and on the missing-id case. -/
theorem native_value_spec_witness :
    native_value (some [("a", coinA)]) "a" 2 = some (coinA.current_price * 2) ∧
      native_value none "a" 2 = none ∧
      native_value (some [("a", coinA)]) "b" 2 = none :=
  ⟨(native_value_spec (some [("a", coinA)]) "a" 2).1 [("a", coinA)] coinA rfl rfl,
   (native_value_spec none "a" 2).2.1 rfl,
   (native_value_spec (some [("a", coinA)]) "b" 2).2.2 [("a", coinA)] rfl rfl⟩

/-- Modelled from the spec: the attribute key constants imported from
`const.const`, a module of this repository that is not under `src/`; the spec
lists them as the distinct fields "timestamp of evaluation, asset name/symbol,
currency, base price, multiplier, volume, six percentage changes, market cap,
supply figures, all-time-high fields, rank, image". -/
inductive AttrKey where
  | last_update
  | cryptocurrency_id
  | cryptocurrency_name
  | cryptocurrency_symbol
  | currency_name
  | base_price
  | multiplier
  | volume_24h
  | change_1h
  | change_24h
  | change_7d
  | change_14d
  | change_30d
  | change_1y
  | market_cap
  | circulating_supply
  | total_supply
  | ath
  | ath_date
  | ath_change
  | rank
  | image
  deriving DecidableEq

/-- An attribute value: Python `None`, a string, a rational number, or a
natural number (the rank). -/
inductive AttrVal where
  | null
  | str (s : String)
  | num (q : ℚ)
  | nat (n : ℕ)
  deriving DecidableEq

/-- Lift an optional rational to an attribute value. -/
def optNum : Option ℚ → AttrVal
  | none => .null
  | some q => .num q

/-- Lift an optional string to an attribute value. -/
def optStr : Option String → AttrVal
  | none => .null
  | some s => .str s

/-- Lift an optional natural to an attribute value. -/
def optNat : Option ℕ → AttrVal
  | none => .null
  | some n => .nat n

/-- The all-unavailable attribute dict returned when the cache is falsy or the
asset id is absent (sensor.py lines 340-361): 20 keys, everything `None` but
the evaluation timestamp. -/
def unavailableAttrs (nowStr : String) : List (AttrKey × AttrVal) :=
  [(.last_update, .str nowStr),
   (.cryptocurrency_name, .null),
   (.currency_name, .null),
   (.base_price, .null),
   (.multiplier, .null),
   (.volume_24h, .null),
   (.change_1h, .null),
   (.change_24h, .null),
   (.change_7d, .null),
   (.change_14d, .null),
   (.change_30d, .null),
   (.change_1y, .null),
   (.market_cap, .null),
   (.circulating_supply, .null),
   (.total_supply, .null),
   (.ath, .null),
   (.ath_date, .null),
   (.ath_change, .null),
   (.rank, .null),
   (.image, .null)]

/-- The attribute dict built from the cached record (sensor.py lines 363-387):
22 keys, including the asset id and symbol that the unavailable branch lacks. -/
def presentAttrs (nowStr : String) (cid : String) (currency : String)
    (multiplier : String) (d : Coin) : List (AttrKey × AttrVal) :=
  [(.last_update, .str nowStr),
   (.cryptocurrency_id, .str cid),
   (.cryptocurrency_name, .str d.name),
   (.cryptocurrency_symbol, .str d.symbol),
   (.currency_name, .str currency),
   (.base_price, .num d.current_price),
   (.multiplier, .str multiplier),
   (.volume_24h, .num d.total_volume),
   (.change_1h, optNum d.price_change_percentage_1h_in_currency),
   (.change_24h, optNum d.price_change_percentage_24h_in_currency),
   (.change_7d, optNum d.price_change_percentage_7d_in_currency),
   (.change_14d, optNum d.price_change_percentage_14d_in_currency),
   (.change_30d, optNum d.price_change_percentage_30d_in_currency),
   (.change_1y, optNum d.price_change_percentage_1y_in_currency),
   (.market_cap, optNum d.market_cap),
   (.circulating_supply, optNum d.circulating_supply),
   (.total_supply, optNum d.total_supply),
   (.ath, optNum d.ath),
   (.ath_date, optStr d.ath_date),
   (.ath_change, optNum d.ath_change_percentage),
   (.rank, optNat d.market_cap_rank),
   (.image, .str d.image)]

/-- `CryptoinfoSensor.extra_state_attributes` (sensor.py lines 333-387). -/
def extra_state_attributes (data : Option Cache) (cryptocurrency_id : String)
    (currency : String) (multiplier : String) (nowStr : String) :
    List (AttrKey × AttrVal) :=
  match data with
  | none => unavailableAttrs nowStr
  | some m =>
      if m.isEmpty then unavailableAttrs nowStr
      else
        match m.lookup cryptocurrency_id with
        | none => unavailableAttrs nowStr
        | some d => presentAttrs nowStr cryptocurrency_id currency multiplier d

/-- C9 as stated is false on the code: the present-in-cache branch exposes the
`cryptocurrency_id` and `cryptocurrency_symbol` keys that the absent branch
omits, so the two branches do not produce the same attribute key set. -/
theorem attrs_key_sets_differ :
    AttrKey.cryptocurrency_id ∈
        (extra_state_attributes (some [("a", coinA)]) "a" "usd" "2" "t").map Prod.fst ∧
      AttrKey.cryptocurrency_id ∉
        (extra_state_attributes none "a" "usd" "2" "t").map Prod.fst ∧
      AttrKey.cryptocurrency_symbol ∈
        (extra_state_attributes (some [("a", coinA)]) "a" "usd" "2" "t").map Prod.fst ∧
      AttrKey.cryptocurrency_symbol ∉
        (extra_state_attributes none "a" "usd" "2" "t").map Prod.fst := by
  refine ⟨by decide, by decide, by decide, by decide⟩

/-- C9 amended: both branches produce a fixed key list — 22 keys from the
single cached record when the asset is present, 20 all-unavailable keys
otherwise — and the two lists agree except that the absent branch omits the
asset id and symbol keys. -/
theorem attrs_fixed_keys (data : Option Cache) (cid currency mult nowStr : String) :
    (∀ m d, data = some m → m.lookup cid = some d →
        (extra_state_attributes data cid currency mult nowStr).map Prod.fst
          = (presentAttrs nowStr cid currency mult d).map Prod.fst) ∧
      (data = none →
        (extra_state_attributes data cid currency mult nowStr).map Prod.fst
          = (unavailableAttrs nowStr).map Prod.fst) ∧
      (∀ m, data = some m → m.lookup cid = none →
        (extra_state_attributes data cid currency mult nowStr).map Prod.fst
          = (unavailableAttrs nowStr).map Prod.fst) ∧
      (unavailableAttrs nowStr).map Prod.fst
        = ((presentAttrs nowStr cid currency mult coinA).map Prod.fst).filter
            (fun k => k ≠ .cryptocurrency_id ∧ k ≠ .cryptocurrency_symbol) := by
  refine ⟨?_, ?_, ?_, rfl⟩
  · rintro m d rfl hl
    cases m with
    | nil => cases hl
    | cons p t => simp [extra_state_attributes, hl]
  · rintro rfl
    rfl
  · rintro m rfl hl
    cases m with
    | nil => rfl
    | cons p t => simp [extra_state_attributes, hl]

/-- Witness for the amended C9 on a one-record cache and an empty cache. -/
theorem attrs_fixed_keys_witness :
    (extra_state_attributes (some [("a", coinA)]) "a" "usd" "2" "t").map Prod.fst
        = (presentAttrs "t" "a" "usd" "2" coinA).map Prod.fst ∧
      (extra_state_attributes none "a" "usd" "2" "t").map Prod.fst
        = (unavailableAttrs "t").map Prod.fst :=
  ⟨(attrs_fixed_keys (some [("a", coinA)]) "a" "usd" "2" "t").1
      [("a", coinA)] coinA rfl rfl,
   (attrs_fixed_keys none "a" "usd" "2" "t").2.1 rfl⟩

end Cryptoinfo
